import Mathlib

/-!
Shallow embedding of the `confusables` Go package: the `Skeleton`
confusable-detection transform (confusables.go) and the confusables table
builder (maketables.go).

Go strings are modelled as lists of bytes (`List Nat`), Go runes (`int32`)
as `Int`.  Unicode NFKD normalization is an external collaborator of the
code (golang.org/x/text/unicode/norm) and is kept as an explicit function
parameter `nfkd`, as is the generated `confusablesMap` (a `Int → Option
(List Nat)` parameter `m`), whose concrete contents are generated data and
not part of the repository's sources.
-/

namespace Confusables

/-- Go `utf8.EncodeRune` / `string(r)` for a rune `r`: the UTF-8 encoding of
one rune.  As in Go, a negative value, a value above `MaxRune`, or a
surrogate encodes `RuneError` (U+FFFD). -/
def encodeRune (r : Int) : List Nat :=
  if 0 ≤ r ∧ r < 0x80 then [r.toNat]
  else if 0 ≤ r ∧ r < 0x800 then
    [0xC0 + r.toNat / 64, 0x80 + r.toNat % 64]
  else if (0xD800 ≤ r ∧ r ≤ 0xDFFF) ∨ r < 0 ∨ 0x10FFFF < r then
    [0xEF, 0xBF, 0xBD]
  else if r < 0x10000 then
    [0xE0 + r.toNat / 4096, 0x80 + r.toNat / 64 % 64, 0x80 + r.toNat % 64]
  else
    [0xF0 + r.toNat / 262144, 0x80 + r.toNat / 4096 % 64,
     0x80 + r.toNat / 64 % 64, 0x80 + r.toNat % 64]

/-- Go `string(rs)` for a rune slice `rs`: concatenated UTF-8 encodings. -/
def encodeRunes (rs : List Int) : List Nat :=
  (rs.map encodeRune).flatten

/-- The bytes of a Lean string literal; used to transcribe the Go source's
string literals into the byte-list model. -/
def goStr (s : String) : List Nat :=
  (s.data.map (fun c => encodeRune (c.toNat : Int))).flatten

/-- Go `utf8.DecodeRuneInString`: the first rune of a byte string and its
width in bytes.  Invalid input yields `RuneError` (U+FFFD) with width 1,
the empty string yields `RuneError` with width 0, exactly as in Go. -/
def decodeRune : List Nat → Int × Nat
  | [] => (0xFFFD, 0)
  | b0 :: rest =>
    if b0 < 0x80 then ((b0 : Int), 1)
    else if b0 < 0xC2 then (0xFFFD, 1)
    else if b0 < 0xE0 then
      match rest with
      | b1 :: _ =>
        if 0x80 ≤ b1 ∧ b1 ≤ 0xBF then
          (((b0 % 0x20) * 64 + b1 % 64 : Nat), 2)
        else (0xFFFD, 1)
      | [] => (0xFFFD, 1)
    else if b0 < 0xF0 then
      match rest with
      | b1 :: b2 :: _ =>
        if (if b0 = 0xE0 then 0xA0 else 0x80) ≤ b1
            ∧ b1 ≤ (if b0 = 0xED then 0x9F else 0xBF)
            ∧ 0x80 ≤ b2 ∧ b2 ≤ 0xBF then
          (((b0 % 0x10) * 4096 + (b1 % 64) * 64 + b2 % 64 : Nat), 3)
        else (0xFFFD, 1)
      | _ => (0xFFFD, 1)
    else if b0 < 0xF5 then
      match rest with
      | b1 :: b2 :: b3 :: _ =>
        if (if b0 = 0xF0 then 0x90 else 0x80) ≤ b1
            ∧ b1 ≤ (if b0 = 0xF4 then 0x8F else 0xBF)
            ∧ 0x80 ≤ b2 ∧ b2 ≤ 0xBF ∧ 0x80 ≤ b3 ∧ b3 ≤ 0xBF then
          (((b0 % 8) * 262144 + (b1 % 64) * 4096 + (b2 % 64) * 64 + b3 % 64 : Nat), 4)
        else (0xFFFD, 1)
      | _ => (0xFFFD, 1)
    else (0xFFFD, 1)

theorem decodeRune_width_pos (b : Nat) (rest : List Nat) :
    0 < (decodeRune (b :: rest)).2 := by
  simp only [decodeRune]
  repeat' split
  all_goals simp

theorem decodeRune_width_le (b : Nat) (rest : List Nat) :
    (decodeRune (b :: rest)).2 ≤ rest.length + 1 := by
  simp only [decodeRune]
  repeat' split
  all_goals simp_all [List.length_cons]

example : goStr "A" = [65] := by decide
example : goStr "π" = [0xCF, 0x80] := by decide
example : decodeRune (goStr "πx") = (0x3C0, 2) := by decide

theorem length_drop_decode_lt (b : Nat) (rest : List Nat) :
    ((b :: rest).drop (decodeRune (b :: rest)).2).length < (b :: rest).length := by
  have := decodeRune_width_pos b rest
  simp [List.length_drop]
  omega

/-- The substitution pass of `Skeleton`, written as the codepoint-by-
codepoint left-to-right scan it performs: a codepoint that is a key of the
map contributes its replacement string, which the scan does not revisit;
a codepoint absent from the map contributes its own bytes. -/
def substitute (m : Int → Option (List Nat)) (s : List Nat) : List Nat :=
  match s with
  | [] => []
  | b :: rest =>
    match m (decodeRune (b :: rest)).1 with
    | some repl => repl ++ substitute m ((b :: rest).drop (decodeRune (b :: rest)).2)
    | none =>
      (b :: rest).take (decodeRune (b :: rest)).2
        ++ substitute m ((b :: rest).drop (decodeRune (b :: rest)).2)
termination_by s.length
decreasing_by
  all_goals apply length_drop_decode_lt

theorem substitute_nil (m : Int → Option (List Nat)) : substitute m [] = [] := by
  rw [substitute]

theorem substitute_cons (m : Int → Option (List Nat)) (b : Nat) (rest : List Nat) :
    substitute m (b :: rest)
      = match m (decodeRune (b :: rest)).1 with
        | some repl =>
          repl ++ substitute m ((b :: rest).drop (decodeRune (b :: rest)).2)
        | none =>
          (b :: rest).take (decodeRune (b :: rest)).2
            ++ substitute m ((b :: rest).drop (decodeRune (b :: rest)).2) := by
  rw [substitute]

/-- One iteration of the scan loop in `Skeleton` (confusables.go, lines
16-23): decode the rune at byte offset `i`; if it is a key of the map,
splice its replacement in place of it (`s = s[:i] + replacement +
s[i+width:]`) and move to `i + len(replacement)`, otherwise keep the
string and move to `i + width`. -/
def skeletonStep (m : Int → Option (List Nat)) (s : List Nat) (i : Nat) :
    List Nat × Nat :=
  match m (decodeRune (s.drop i)).1 with
  | some repl =>
    (s.take i ++ repl ++ s.drop (i + (decodeRune (s.drop i)).2), i + repl.length)
  | none => (s, i + (decodeRune (s.drop i)).2)

/-- Each loop iteration strictly shrinks the byte length of the unscanned
suffix `s[i:]`: by the replaced codepoint's width on a substitution, and by
the decoded codepoint's width otherwise. -/
theorem skeletonStep_measure (m : Int → Option (List Nat)) (s : List Nat)
    (i : Nat) (h : i < s.length) :
    (skeletonStep m s i).1.length - (skeletonStep m s i).2 < s.length - i := by
  obtain ⟨b, rest, hbr⟩ : ∃ b rest, s.drop i = b :: rest := by
    cases hd : s.drop i with
    | nil =>
      have : s.length ≤ i := List.drop_eq_nil_iff.mp hd
      omega
    | cons b rest => exact ⟨b, rest, rfl⟩
  have hlen : (s.drop i).length = s.length - i := List.length_drop i s
  have hw1 : 0 < (decodeRune (s.drop i)).2 := by
    rw [hbr]; exact decodeRune_width_pos b rest
  have hw2 : (decodeRune (s.drop i)).2 ≤ s.length - i := by
    have := decodeRune_width_le b rest
    have : (decodeRune (s.drop i)).2 ≤ (s.drop i).length := by
      rw [hbr]; simpa using this
    omega
  unfold skeletonStep
  cases hm : m (decodeRune (s.drop i)).1 with
  | none => simp; omega
  | some repl =>
    simp [List.length_append, List.length_take, List.length_drop]
    omega

/-- The scan loop of `Skeleton` (confusables.go):
`for i, w := 0, 0; i < len(s); i += w { ... }`. -/
def skeletonLoop (m : Int → Option (List Nat)) (s : List Nat) (i : Nat) :
    List Nat :=
  if h : i < s.length then
    skeletonLoop m (skeletonStep m s i).1 (skeletonStep m s i).2
  else s
termination_by s.length - i
decreasing_by exact skeletonStep_measure m s i h

/-- The number of iterations the scan loop makes from state `(s, i)`. -/
def skeletonSteps (m : Int → Option (List Nat)) (s : List Nat) (i : Nat) :
    Nat :=
  if h : i < s.length then
    skeletonSteps m (skeletonStep m s i).1 (skeletonStep m s i).2 + 1
  else 0
termination_by s.length - i
decreasing_by exact skeletonStep_measure m s i h

/-- `Skeleton` (confusables.go): NFKD-normalize, run the substitution scan
loop from offset 0, NFKD-normalize again. -/
def Skeleton (m : Int → Option (List Nat)) (nfkd : List Nat → List Nat)
    (s : List Nat) : List Nat :=
  nfkd (skeletonLoop m (nfkd s) 0)

theorem skeletonSteps_le (m : Int → Option (List Nat)) :
    ∀ (n : Nat) (s : List Nat) (i : Nat), s.length - i ≤ n →
      skeletonSteps m s i ≤ n := by
  intro n
  induction n with
  | zero =>
    intro s i h
    unfold skeletonSteps
    rw [dif_neg (by omega)]
  | succ n ih =>
    intro s i h
    unfold skeletonSteps
    by_cases hi : i < s.length
    · rw [dif_pos hi]
      have hdec := skeletonStep_measure m s i hi
      have := ih (skeletonStep m s i).1 (skeletonStep m s i).2 (by omega)
      omega
    · rw [dif_neg hi]; omega

/-- The in-place splice-and-skip loop, run from a scan position that splits
the string into an already-scanned prefix `p` and an unscanned suffix
`rest`, rewrites exactly the suffix by the codepoint-by-codepoint
substitution. -/
theorem skeletonLoop_append (m : Int → Option (List Nat)) :
    ∀ (n : Nat) (rest p : List Nat), rest.length ≤ n →
      skeletonLoop m (p ++ rest) p.length = p ++ substitute m rest := by
  intro n
  induction n with
  | zero =>
    intro rest p h
    have : rest = [] := List.length_eq_zero.mp (by omega)
    subst this
    unfold skeletonLoop
    rw [dif_neg (by simp)]
    rw [substitute_nil]
  | succ n ih =>
    intro rest p h
    match rest with
    | [] =>
      unfold skeletonLoop
      rw [dif_neg (by simp)]
      rw [substitute_nil]
    | b :: rest' =>
      have hlt : p.length < (p ++ b :: rest').length := by simp
      have hdrop : (p ++ b :: rest').drop p.length = b :: rest' :=
        List.drop_left p (b :: rest')
      have hw1 : 0 < (decodeRune (b :: rest')).2 := decodeRune_width_pos b rest'
      have hw2 : (decodeRune (b :: rest')).2 ≤ rest'.length + 1 :=
        decodeRune_width_le b rest'
      unfold skeletonLoop
      rw [dif_pos hlt]
      unfold skeletonStep
      rw [hdrop]
      cases hm : m (decodeRune (b :: rest')).1 with
      | none =>
        simp only []
        have htd : p ++ b :: rest'
            = (p ++ (b :: rest').take (decodeRune (b :: rest')).2)
              ++ (b :: rest').drop (decodeRune (b :: rest')).2 := by
          simp [List.take_append_drop]
        have hplen : p.length + (decodeRune (b :: rest')).2
            = (p ++ (b :: rest').take (decodeRune (b :: rest')).2).length := by
          simp [List.length_take]
          omega
        rw [htd, hplen]
        rw [ih ((b :: rest').drop (decodeRune (b :: rest')).2) _
          (by simp only [List.length_drop, List.length_cons] at h ⊢; omega)]
        rw [substitute_cons, hm]
        simp
      | some repl =>
        simp only []
        have htake : (p ++ b :: rest').take p.length = p := List.take_left p _
        have hdrop2 : (p ++ b :: rest').drop (p.length + (decodeRune (b :: rest')).2)
            = (b :: rest').drop (decodeRune (b :: rest')).2 := by
          rw [← List.drop_drop, hdrop]
        have hplen : p.length + repl.length = (p ++ repl).length := by simp
        rw [htake, hdrop2, hplen]
        rw [show p ++ repl ++ (b :: rest').drop (decodeRune (b :: rest')).2
              = (p ++ repl) ++ (b :: rest').drop (decodeRune (b :: rest')).2 from rfl]
        rw [ih ((b :: rest').drop (decodeRune (b :: rest')).2) (p ++ repl)
          (by simp only [List.length_drop, List.length_cons] at h ⊢; omega)]
        rw [substitute_cons, hm]
        simp

/-- The scan loop started at offset 0 computes the codepoint-by-codepoint
substitution of the whole string. -/
theorem skeletonLoop_eq_substitute (m : Int → Option (List Nat))
    (s : List Nat) : skeletonLoop m s 0 = substitute m s := by
  have := skeletonLoop_append m s.length s [] (le_refl _)
  simpa using this

/-- `Skeleton` unfolded to the three steps: NFKD, substitution, NFKD. -/
theorem Skeleton_eq (m : Int → Option (List Nat)) (nfkd : List Nat → List Nat)
    (s : List Nat) : Skeleton m nfkd s = nfkd (substitute m (nfkd s)) := by
  unfold Skeleton
  rw [skeletonLoop_eq_substitute]

/-- No codepoint met along the decode scan of `s` is a key of the map. -/
def keyFree (m : Int → Option (List Nat)) (s : List Nat) : Bool :=
  match s with
  | [] => true
  | b :: rest =>
    (m (decodeRune (b :: rest)).1).isNone
      && keyFree m ((b :: rest).drop (decodeRune (b :: rest)).2)
termination_by s.length
decreasing_by
  apply length_drop_decode_lt

theorem keyFree_nil (m : Int → Option (List Nat)) : keyFree m [] = true := by
  rw [keyFree]

theorem keyFree_cons (m : Int → Option (List Nat)) (b : Nat) (rest : List Nat) :
    keyFree m (b :: rest)
      = ((m (decodeRune (b :: rest)).1).isNone
          && keyFree m ((b :: rest).drop (decodeRune (b :: rest)).2)) := by
  rw [keyFree]

/-- On a key-free string the substitution pass is the identity. -/
theorem substitute_of_keyFree (m : Int → Option (List Nat)) :
    ∀ (n : Nat) (s : List Nat), s.length ≤ n → keyFree m s = true →
      substitute m s = s := by
  intro n
  induction n with
  | zero =>
    intro s hl _
    have : s = [] := List.length_eq_zero.mp (by omega)
    subst this
    exact substitute_nil m
  | succ n ih =>
    intro s hl hk
    match s with
    | [] => exact substitute_nil m
    | b :: rest =>
      rw [keyFree_cons, Bool.and_eq_true, Option.isNone_iff_eq_none] at hk
      rw [substitute_cons, hk.1]
      have hw1 : 0 < (decodeRune (b :: rest)).2 := decodeRune_width_pos b rest
      rw [ih ((b :: rest).drop (decodeRune (b :: rest)).2)
        (by simp only [List.length_drop, List.length_cons] at hl ⊢; omega) hk.2]
      exact List.take_append_drop _ _

/-- With the empty map every string is key-free. -/
theorem keyFree_of_empty :
    ∀ (n : Nat) (s : List Nat), s.length ≤ n →
      keyFree (fun _ => none) s = true := by
  intro n
  induction n with
  | zero =>
    intro s hl
    have : s = [] := List.length_eq_zero.mp (by omega)
    subst this
    exact keyFree_nil _
  | succ n ih =>
    intro s hl
    match s with
    | [] => exact keyFree_nil _
    | b :: rest =>
      rw [keyFree_cons]
      simp only [Option.isNone_none, Bool.true_and]
      have hw1 : 0 < (decodeRune (b :: rest)).2 := decodeRune_width_pos b rest
      exact ih _ (by simp only [List.length_drop, List.length_cons] at hl ⊢; omega)

/-! ### The table builder (maketables.go) -/

/-- One hexadecimal digit as Go `strconv.ParseUint` with base 16 reads a
byte: `0`-`9`, `a`-`f`, `A`-`F`; anything else is a syntax error. -/
def hexDigit (b : Nat) : Option Nat :=
  if 48 ≤ b ∧ b ≤ 57 then some (b - 48)
  else if 97 ≤ b ∧ b ≤ 102 then some (b - 87)
  else if 65 ≤ b ∧ b ≤ 70 then some (b - 55)
  else none

/-- The value of a string of hex digits, `none` if any byte is not one. -/
def hexValue (s : List Nat) : Option Nat :=
  s.foldl
    (fun acc b =>
      match acc, hexDigit b with
      | some v, some d => some (v * 16 + d)
      | _, _ => none)
    (some 0)

/-- Go `strconv.ParseUint(s, 16, 64)`: `none` models `err != nil` — the
empty string, a non-hex-digit byte, or a value that does not fit in 64
bits (Go's range error). -/
def parseUintHex (s : List Nat) : Option Nat :=
  match s with
  | [] => none
  | _ :: _ =>
    match hexValue s with
    | none => none
    | some v => if v < 2 ^ 64 then some v else none

/-- The Go conversion `rune(x)` applied to a `uint64` value: truncation to
the low 32 bits read as a signed `int32`. -/
def toRune (x : Nat) : Int :=
  if x % 2 ^ 32 < 2 ^ 31 then ((x % 2 ^ 32 : Nat) : Int)
  else ((x % 2 ^ 32 : Nat) : Int) - 2 ^ 32

/-- `parsePoint` (maketables.go): parse a hexadecimal codepoint field.
`none` models `log.Fatalf`.  The code parses the field with
`strconv.ParseUint(pointString, 16, 64)`, converts with `rune(x)` — an
int32 truncation — and only then rejects a zero or `> MaxChar` rune. -/
def parsePoint (s : List Nat) : Option Int :=
  match parseUintHex s with
  | none => none
  | some x =>
    if toRune x = 0 then none
    else if toRune x > 0x10FFFF then none
    else some (toRune x)

/-- Type `C` (maketables.go): one confusables.txt entry — the source rune
`k` and the target runes `v`. -/
structure C where
  k : Int
  v : List Int
deriving DecidableEq

deriving instance DecidableEq for Except

/-- Go `strings.Split(s, sep)` for non-empty `sep`, written with a
structurally decreasing fuel (initialized to the byte length of `s`, which
never runs out because every step consumes at least one byte): split `s`
on every left-to-right, non-overlapping occurrence of `sep`. -/
def goSplitAux (sep : List Nat) : Nat → List Nat → List (List Nat)
  | _, [] => [[]]
  | 0, s => [s]
  | fuel + 1, b :: rest =>
    if sep.isPrefixOf (b :: rest) ∧ sep ≠ [] then
      [] :: goSplitAux sep fuel ((b :: rest).drop sep.length)
    else
      match goSplitAux sep fuel rest with
      | [] => [[b]]
      | f :: fs => (b :: f) :: fs

/-- Go `strings.Split(s, sep)`. -/
def goSplit (sep s : List Nat) : List (List Nat) :=
  goSplitAux sep s.length s

/-- The separator `" ;\t"` between the fields of a confusables.txt line. -/
def fieldSep : List Nat := goStr " ;\t"

/-- `parsePoint` applied to each target-codepoint field, as the loop over
`targetCodePoints` does; `none` if any of them is fatal. -/
def parsePoints : List (List Nat) → Option (List Int)
  | [] => some []
  | f :: fs =>
    match parsePoint f, parsePoints fs with
    | some r, some rs => some (r :: rs)
    | _, _ => none

/-- `parseCharacter` (maketables.go): parse one line of confusables.txt.
`Except.error ()` models `log.Fatalf`; `Except.ok none` a line that
contributes no entry; `Except.ok (some c)` an accepted entry. -/
def parseCharacter (line : List Nat) : Except Unit (Option C) :=
  if line = [] ∨ line.headD 0 = 35 then Except.ok none
  else if (goSplit fieldSep line).length ≠ 3 then Except.error ()
  else if ¬ (goStr "MA").isPrefixOf ((goSplit fieldSep line).getD 2 []) then
    Except.ok none
  else
    match parsePoint ((goSplit fieldSep line).getD 0 []) with
    | none => Except.error ()
    | some src =>
      match parsePoints (goSplit (goStr " ") ((goSplit fieldSep line).getD 1 [])) with
      | none => Except.error ()
      | some tgts => Except.ok (some ⟨src, tgts⟩)

/-- `parseHeader` (maketables.go): `true` exactly when the header block
ends — the line, after stripping a leading UTF-8 BOM (only done when the
line is longer than 3 bytes), is empty or does not start with `#`.  The
source also accumulates the header text for the generated file's comment;
that output-only side effect carries no data used by the table and is not
modelled. -/
def parseHeader (line : List Nat) : Bool :=
  let l :=
    if 3 < line.length ∧ line.take 3 = [0xEF, 0xBB, 0xBF] then line.drop 3
    else line
  decide (l = [] ∨ l.headD 0 ≠ 35)

/-- The first loop of `loadUnicodeData`: scan lines with `parseHeader` and
`break` on (so: consume) the first line on which it returns `true`; the
lines after it are handed to `parseCharacter`. -/
def findDataLines : List (List Nat) → List (List Nat)
  | [] => []
  | l :: rest => if parseHeader l then rest else findDataLines rest

/-- The second loop of `loadUnicodeData`: `parseCharacter` on every
remaining line, accumulating entries in order; a fatal line aborts the
whole build. -/
def parseAll : List (List Nat) → Except Unit (List C)
  | [] => Except.ok []
  | l :: rest =>
    match parseCharacter l, parseAll rest with
    | Except.error e, _ => Except.error e
    | _, Except.error e => Except.error e
    | Except.ok none, Except.ok cs => Except.ok cs
    | Except.ok (some c), Except.ok cs => Except.ok (c :: cs)

/-- `loadUnicodeData` (maketables.go) over the dataset's lines. -/
def loadUnicodeData (lines : List (List Nat)) : Except Unit (List C) :=
  parseAll (findDataLines lines)

/-- Go `strings.Contains(s, sub)`: `sub` occurs as a contiguous substring
of `s` (at byte level). -/
def goContains (s sub : List Nat) : Bool :=
  match s with
  | [] => sub.isEmpty
  | _ :: rest => sub.isPrefixOf s || goContains rest sub

/-- Go `strings.Replace(s, old, new, -1)` for non-empty `old`, written with
a structurally decreasing fuel (initialized to the byte length of `s`,
which never runs out because every step consumes at least one byte):
replace every left-to-right, non-overlapping occurrence of `old` by
`new`. -/
def goReplaceAllAux (old new : List Nat) : Nat → List Nat → List Nat
  | _, [] => []
  | 0, s => s
  | fuel + 1, b :: rest =>
    if old.isPrefixOf (b :: rest) ∧ old ≠ [] then
      new ++ goReplaceAllAux old new fuel ((b :: rest).drop old.length)
    else
      b :: goReplaceAllAux old new fuel rest

/-- Go `strings.Replace(s, old, new, -1)` for non-empty `old`. -/
def goReplaceAll (s old new : List Nat) : List Nat :=
  goReplaceAllAux old new s.length s

/-- The body of the emission loop of `makeTables` (maketables.go): the
ordered, first-match override chain applied to one entry.  `none` means
the entry is dropped (the `m` → `rn` self-loop case); otherwise the pair
is the key and replacement string emitted into `confusablesMap`. -/
def processEntry (c : C) : Option (Int × List Nat) :=
  if goContains (encodeRunes c.v) (goStr "rn") then
    if encodeRune c.k ≠ goStr "m" then
      some (c.k, goReplaceAll (encodeRunes c.v) (goStr "rn") (goStr "m"))
    else none
  else if goContains (encodeRunes c.v) (goStr "π") then
    some (c.k, goReplaceAll (encodeRunes c.v) (goStr "π") (goStr "n"))
  else if goContains (encodeRunes c.v) (goStr "μ") then
    some (c.k, goReplaceAll (encodeRunes c.v) (goStr "μ") (goStr "u"))
  else if goContains (encodeRunes c.v) (goStr "χ") then
    some (c.k, goReplaceAll (encodeRunes c.v) (goStr "χ") (goStr "x"))
  else if goContains (encodeRunes c.v) (goStr "ʀ") then
    some (c.k, goReplaceAll (encodeRunes c.v) (goStr "ʀ") (goStr "R"))
  else if goContains (encodeRunes c.v) (goStr "ኮ") then
    some (c.k, goReplaceAll (encodeRunes c.v) (goStr "ኮ") (goStr "r"))
  else
    some (c.k, encodeRunes c.v)

/-- The fixed supplementary entries appended unconditionally at the end of
`makeTables`, in the source's order. -/
def supplementary : List (Int × List Nat) :=
  [(('ᛒ'.toNat : Int), goStr "B"),
   (('ｂ'.toNat : Int), goStr "b"),
   (('Ｄ'.toNat : Int), goStr "D"),
   (('ḍ'.toNat : Int), goStr "d"),
   (('ｄ'.toNat : Int), goStr "d"),
   (('Ｆ'.toNat : Int), goStr "F"),
   (('ｆ'.toNat : Int), goStr "f"),
   (('Ｇ'.toNat : Int), goStr "G"),
   (('ｋ'.toNat : Int), goStr "k"),
   (('Ｌ'.toNat : Int), goStr "L"),
   (('ｍ'.toNat : Int), goStr "m"),
   (('ɴ'.toNat : Int), goStr "N"),
   (('ｎ'.toNat : Int), goStr "n"),
   (('Ⴍ'.toNat : Int), goStr "Q"),
   (('Ⴓ'.toNat : Int), goStr "Q"),
   (('Ｑ'.toNat : Int), goStr "Q"),
   (('ｑ'.toNat : Int), goStr "q"),
   (('Ｒ'.toNat : Int), goStr "R"),
   (('ʀ'.toNat : Int), goStr "R"),
   (('ᚱ'.toNat : Int), goStr "R"),
   (('ｒ'.toNat : Int), goStr "r"),
   (('Ⴝ'.toNat : Int), goStr "S"),
   (('ｔ'.toNat : Int), goStr "t"),
   (('Ա'.toNat : Int), goStr "U"),
   (('Ｕ'.toNat : Int), goStr "U"),
   (('ｕ'.toNat : Int), goStr "u"),
   (('Ｖ'.toNat : Int), goStr "V"),
   (('Ｗ'.toNat : Int), goStr "W"),
   (('ｗ'.toNat : Int), goStr "w"),
   (('ｚ'.toNat : Int), goStr "z"),
   (('π'.toNat : Int), goStr "n")]

/-- `makeTables` (maketables.go): the emitted `confusablesMap`, as the
list of key/replacement pairs in emission order — each dataset entry run
through the override chain, then the supplementary list. -/
def makeTables (entries : List C) : List (Int × List Nat) :=
  entries.filterMap processEntry ++ supplementary

/-- The override chain of `makeTables` as the spec presents it: an ordered
list of (pattern, replacement) rules evaluated first-match. -/
def overrideRules : List (List Nat × List Nat) :=
  [(goStr "rn", goStr "m"),
   (goStr "π", goStr "n"),
   (goStr "μ", goStr "u"),
   (goStr "χ", goStr "x"),
   (goStr "ʀ", goStr "R"),
   (goStr "ኮ", goStr "r")]

/-- First-match evaluation of an ordered rule list: the first rule whose
pattern occurs in the target replaces every occurrence of that pattern,
and later rules are never applied. -/
def applyFirstMatch : List (List Nat × List Nat) → List Nat → List Nat
  | [], v => v
  | (pat, rep) :: rules, v =>
    if goContains v pat then goReplaceAll v pat rep
    else applyFirstMatch rules v

/-- The override chain as the claim describes it: first-match over the
fixed rule order, except that an entry whose target contains "rn" and
whose source decodes to "m" is dropped. -/
def processEntrySpec (c : C) : Option (Int × List Nat) :=
  if goContains (encodeRunes c.v) (goStr "rn") ∧ encodeRune c.k = goStr "m" then
    none
  else
    some (c.k, applyFirstMatch overrideRules (encodeRunes c.v))

/-! ### Executable checks of the embedding on concrete inputs -/

example : goSplit fieldSep (goStr "0041 ;\t0042 0043 ;\tMA\t# c")
    = [goStr "0041", goStr "0042 0043", goStr "MA\t# c"] := by decide
example : parsePoint (goStr "0041") = some 65 := by decide
example : parsePoint (goStr "100000041") = some 65 := by decide
example : parsePoint (goStr "110000") = none := by decide
example : parsePoint (goStr "FFFFFFFF") = some (-1) := by decide
example : parsePoint (goStr "XYZ") = none := by decide
example : parsePoint (goStr "0") = none := by decide
example : parseCharacter (goStr "0041 ;\t0042 0043 ;\tMA\t# c")
    = Except.ok (some (C.mk 65 [66, 67])) := by decide
example : parseCharacter (goStr "XYZ ;\tXYZ ;\tSL") = Except.ok none := by decide
example : parseCharacter (goStr "0041 ;\t0042") = Except.error () := by decide
example : parseCharacter (goStr "") = Except.ok none := by decide
example : parseCharacter (goStr "# x") = Except.ok none := by decide
example : parseHeader (goStr "# x") = false := by decide
example : parseHeader (goStr "") = true := by decide
example : parseHeader (goStr "0041 ;\t0042 ;\tMA") = true := by decide
example : loadUnicodeData [goStr "# h", goStr "", goStr "XYZ ;\tXYZ ;\tSL"]
    = Except.ok [] := by decide
example : processEntry (C.mk 0x72 [0x72, 0x6E]) = some (114, goStr "m") := by decide
example : processEntry (C.mk 0x6D [0x72, 0x6E]) = none := by decide
example : processEntry (C.mk 0x41 [0x3C0]) = some (0x41, goStr "n") := by decide
example : processEntry (C.mk 0x41 [0x3BC]) = some (0x41, goStr "u") := by decide
example : processEntry (C.mk 0x41 [0x3C7]) = some (0x41, goStr "x") := by decide
example : processEntry (C.mk 0x41 [0x280]) = some (0x41, goStr "R") := by decide
example : processEntry (C.mk 0x41 [0x12AE]) = some (0x41, goStr "r") := by decide
example : processEntry (C.mk 0x41 [0x42, 0x43]) = some (0x41, goStr "BC") := by decide
example : processEntry (C.mk 0x41 [0x72, 0x6E, 0x3C0])
    = some (0x41, goStr "mπ") := by decide


/-! ### Supporting lemmas for the claims -/

theorem parseAll_error_iff (ls : List (List Nat)) :
    parseAll ls = Except.error ()
      ↔ ∃ l ∈ ls, parseCharacter l = Except.error () := by
  induction ls with
  | nil => simp [parseAll]
  | cons l rest ih =>
    simp only [parseAll]
    cases hc : parseCharacter l with
    | error e =>
      cases e
      simp [hc]
    | ok oc =>
      cases hr : parseAll rest with
      | error e =>
        cases e
        simp [hr] at ih
        cases oc <;> simp [hc, ih]
      | ok cs =>
        simp [hr] at ih
        cases oc <;> simp [hc] <;> exact ih

/-! ### The claims -/

/-- C1: for every input string, every confusable map and every NFKD
function, `Skeleton` equals the three described steps — NFKD, then the
left-to-right scan that replaces each codepoint that is a key of the map
in place by its replacement string (advancing past the replacement's
encoded bytes, not the original codepoint's) and leaves other codepoints
unchanged, then NFKD again. -/
theorem claim_skeleton_three_steps (m : Int → Option (List Nat))
    (nfkd : List Nat → List Nat) (s : List Nat) :
    Skeleton m nfkd s = nfkd (substitute m (nfkd s)) :=
  Skeleton_eq m nfkd s

/-- C2: `Skeleton` is idempotent, under the properties of the external
NFKD function and of the generated table the spec relies on: NFKD is
idempotent, NFKD preserves key-freeness, and substituted output is
key-free (no replacement string reintroduces a key of the map). -/
theorem claim_skeleton_idempotent (m : Int → Option (List Nat))
    (nfkd : List Nat → List Nat)
    (h1 : ∀ t, nfkd (nfkd t) = nfkd t)
    (h2 : ∀ t, keyFree m t = true → keyFree m (nfkd t) = true)
    (h3 : ∀ t, keyFree m (substitute m t) = true)
    (s : List Nat) :
    Skeleton m nfkd (Skeleton m nfkd s) = Skeleton m nfkd s := by
  have hkf : keyFree m (Skeleton m nfkd s) = true := by
    rw [Skeleton_eq m nfkd s]
    exact h2 _ (h3 _)
  have hnf : nfkd (Skeleton m nfkd s) = Skeleton m nfkd s := by
    rw [Skeleton_eq m nfkd s]
    exact h1 _
  have hsub : substitute m (Skeleton m nfkd s) = Skeleton m nfkd s :=
    substitute_of_keyFree m (Skeleton m nfkd s).length _ (le_refl _) hkf
  rw [Skeleton_eq m nfkd (Skeleton m nfkd s), hnf, hsub]
  exact hnf

/-- Witness for C2 at a concrete map, NFKD function and input. -/
theorem claim_skeleton_idempotent_witness :
    Skeleton (fun _ => none) id (Skeleton (fun _ => none) id (goStr "paypal"))
      = Skeleton (fun _ => none) id (goStr "paypal") :=
  claim_skeleton_idempotent (fun _ => none) id (fun _ => rfl) (fun _ h => h)
    (fun t => keyFree_of_empty (substitute (fun _ => none) t).length _ (le_refl _))
    (goStr "paypal")

/-- C3: the emission loop applies the override rules in the fixed order
rn, π, μ, χ, ʀ, ኮ, first-match-wins, dropping an entry whose target
contains "rn" only when its source decodes to "m". -/
theorem claim_override_chain_firstMatch (c : C) :
    processEntry c = processEntrySpec c := by
  simp only [processEntry, processEntrySpec, overrideRules, applyFirstMatch]
  split_ifs <;> simp_all

/-- C4 (code bug): `parsePoint` converts the parsed 64-bit value with
`rune(x)` — an int32 truncation — before the `MaxChar` check, so the hex
input "100000041", whose value 0x100000041 exceeds 0x10FFFF, is accepted
as the rune 0x41 instead of being fatally rejected (and "FFFFFFFF" is
accepted as the negative rune -1). -/
theorem claim_parsePoint_truncation_bug :
    parseUintHex (goStr "100000041") = some 0x100000041
  ∧ (0x10FFFF : Nat) < 0x100000041
  ∧ parsePoint (goStr "100000041") = some 65
  ∧ parsePoint (goStr "FFFFFFFF") = some (-1) := by decide

/-- C5 fails as stated: a non-blank, non-comment line with three fields
whose class tag does not start with "MA" is filtered out before its
codepoint fields are parsed, so its parse violations are not fatal, and a
dataset containing such a line still yields a table. -/
theorem claim_parse_violation_not_fatal :
    parsePoint (goStr "XYZ") = none
  ∧ goStr "XYZ ;\tXYZ ;\tSL" ≠ []
  ∧ (goStr "XYZ ;\tXYZ ;\tSL").headD 0 ≠ 35
  ∧ (goSplit fieldSep (goStr "XYZ ;\tXYZ ;\tSL")).length = 3
  ∧ parseCharacter (goStr "XYZ ;\tXYZ ;\tSL") = Except.ok none
  ∧ loadUnicodeData [goStr "# header", goStr "", goStr "XYZ ;\tXYZ ;\tSL"]
      = Except.ok [] := by decide

/-- C5 amended: a field-count violation on any non-blank, non-comment
line is fatal, and a codepoint-parse violation is fatal exactly on lines
whose class tag starts with "MA" (non-MA lines are skipped before their
codepoints are parsed); a fatal line anywhere among the data lines means
no mapping at all is emitted. -/
theorem claim_fatal_characterization :
    (∀ line, parseCharacter line = Except.error ()
      ↔ ¬(line = [] ∨ line.headD 0 = 35)
        ∧ ((goSplit fieldSep line).length ≠ 3
          ∨ ((goStr "MA").isPrefixOf ((goSplit fieldSep line).getD 2 []) = true
            ∧ (parsePoint ((goSplit fieldSep line).getD 0 []) = none
              ∨ parsePoints (goSplit (goStr " ")
                  ((goSplit fieldSep line).getD 1 [])) = none))))
  ∧ (∀ lines, loadUnicodeData lines = Except.error ()
      ↔ ∃ l ∈ findDataLines lines, parseCharacter l = Except.error ()) := by
  constructor
  · intro line
    unfold parseCharacter
    by_cases h1 : line = [] ∨ line.headD 0 = 35
    · rw [if_pos h1]
      apply iff_of_false (by simp)
      rintro ⟨hne, -⟩
      exact hne h1
    · rw [if_neg h1]
      by_cases h2 : (goSplit fieldSep line).length ≠ 3
      · rw [if_pos h2]
        exact iff_of_true rfl ⟨h1, Or.inl h2⟩
      · rw [if_neg h2]
        by_cases h3 : (goStr "MA").isPrefixOf ((goSplit fieldSep line).getD 2 []) = true
        · rw [if_neg (by simpa using h3)]
          cases hp : parsePoint ((goSplit fieldSep line).getD 0 []) with
          | none => exact iff_of_true rfl ⟨h1, Or.inr ⟨h3, Or.inl rfl⟩⟩
          | some src =>
            cases hq : parsePoints (goSplit (goStr " ")
                ((goSplit fieldSep line).getD 1 [])) with
            | none => exact iff_of_true rfl ⟨h1, Or.inr ⟨h3, Or.inr rfl⟩⟩
            | some tgts =>
              apply iff_of_false (by simp)
              rintro ⟨-, hd | ⟨-, hp2 | hq2⟩⟩
              · exact hd (not_not.mp h2)
              · exact Option.noConfusion hp2
              · exact Option.noConfusion hq2
        · rw [if_pos (by simpa using h3)]
          apply iff_of_false (by simp)
          rintro ⟨-, hd | ⟨h3b, -⟩⟩
          · exact hd (not_not.mp h2)
          · exact h3 h3b
  · intro lines
    unfold loadUnicodeData
    exact parseAll_error_iff (findDataLines lines)

/-- C6: the per-line parser yields no entry on blank and comment lines,
is fatal when a non-comment, non-blank line does not split into exactly
three fields, yields no entry (without failing) when the class tag does
not start with "MA", and on every remaining line whose codepoint fields
parse yields exactly one entry with the parsed source and the ordered
parsed targets. -/
theorem claim_parseLine_behavior (line : List Nat) :
    (line = [] ∨ line.headD 0 = 35 → parseCharacter line = Except.ok none)
  ∧ (¬(line = [] ∨ line.headD 0 = 35) →
      (goSplit fieldSep line).length ≠ 3 →
      parseCharacter line = Except.error ())
  ∧ (¬(line = [] ∨ line.headD 0 = 35) →
      (goSplit fieldSep line).length = 3 →
      ¬ (goStr "MA").isPrefixOf ((goSplit fieldSep line).getD 2 []) = true →
      parseCharacter line = Except.ok none)
  ∧ (∀ src tgts, ¬(line = [] ∨ line.headD 0 = 35) →
      (goSplit fieldSep line).length = 3 →
      (goStr "MA").isPrefixOf ((goSplit fieldSep line).getD 2 []) = true →
      parsePoint ((goSplit fieldSep line).getD 0 []) = some src →
      parsePoints (goSplit (goStr " ") ((goSplit fieldSep line).getD 1 []))
        = some tgts →
      parseCharacter line = Except.ok (some (C.mk src tgts))) := by
  refine ⟨?_, ?_, ?_, ?_⟩
  · intro h1
    unfold parseCharacter
    rw [if_pos h1]
  · intro h1 h2
    unfold parseCharacter
    rw [if_neg h1, if_pos h2]
  · intro h1 h2 h3
    unfold parseCharacter
    rw [if_neg h1, if_neg (by omega), if_pos (by simpa using h3)]
  · intro src tgts h1 h2 h3 hp hq
    unfold parseCharacter
    rw [if_neg h1, if_neg (by omega), if_neg (by simpa using h3), hp, hq]

/-- Witness for C6: each of the four cases at a concrete line. -/
theorem claim_parseLine_behavior_witness :
    parseCharacter (goStr "# header text") = Except.ok none
  ∧ parseCharacter (goStr "0041 ;\t0042") = Except.error ()
  ∧ parseCharacter (goStr "0041 ;\t0042 ;\tSL") = Except.ok none
  ∧ parseCharacter (goStr "0041 ;\t0042 0043 ;\tMA\t# c")
      = Except.ok (some (C.mk 65 [66, 67])) :=
  ⟨(claim_parseLine_behavior _).1 (by decide),
   (claim_parseLine_behavior _).2.1 (by decide) (by decide),
   (claim_parseLine_behavior _).2.2.1 (by decide) (by decide) (by decide),
   (claim_parseLine_behavior _).2.2.2 65 [66, 67] (by decide) (by decide)
     (by decide) (by decide) (by decide)⟩

/-- C7: after the dataset entries are processed, the fixed supplementary
override list is appended unconditionally, and its entries — among them
fullwidth Ｄ→"D", runic ᚱ→"R" and the direct π→"n" — appear verbatim in
the emitted map. -/
theorem claim_supplementary_appended (entries : List C) :
    makeTables entries = entries.filterMap processEntry ++ supplementary
  ∧ (('Ｄ'.toNat : Int), goStr "D") ∈ makeTables entries
  ∧ (('ᚱ'.toNat : Int), goStr "R") ∈ makeTables entries
  ∧ (('π'.toNat : Int), goStr "n") ∈ makeTables entries :=
  ⟨rfl,
   List.mem_append_right _ (by decide),
   List.mem_append_right _ (by decide),
   List.mem_append_right _ (by decide)⟩

/-- C8: `Skeleton` is a total function — it is defined on every input as
the normalize/substitute/normalize pipeline — and maps the empty string
to itself whenever the NFKD collaborator does. -/
theorem claim_skeleton_total (m : Int → Option (List Nat))
    (nfkd : List Nat → List Nat) :
    (∀ s, Skeleton m nfkd s = nfkd (skeletonLoop m (nfkd s) 0))
  ∧ (nfkd (goStr "") = goStr "" → Skeleton m nfkd (goStr "") = goStr "") := by
  constructor
  · intro s
    rfl
  · intro h
    have h0 : goStr "" = ([] : List Nat) := rfl
    rw [h0] at h ⊢
    rw [Skeleton_eq, h, substitute_nil, h]

/-- Witness for C8 at a concrete map and NFKD function. -/
theorem claim_skeleton_total_witness :
    Skeleton (fun _ => none) id (goStr "") = goStr "" :=
  (claim_skeleton_total (fun _ => none) id).2 rfl

/-- C9: the line that ends the header block is consumed by the
header-scanning loop and never reaches the line parser, so a data line
standing right after the header comments contributes nothing. -/
theorem claim_header_terminator_consumed (hs : List (List Nat))
    (d : List Nat) (ds : List (List Nat))
    (hhs : ∀ l ∈ hs, parseHeader l = false)
    (hd : parseHeader d = true) :
    findDataLines (hs ++ d :: ds) = ds
  ∧ loadUnicodeData (hs ++ d :: ds) = parseAll ds := by
  have h1 : ∀ hs2 : List (List Nat), (∀ l ∈ hs2, parseHeader l = false) →
      findDataLines (hs2 ++ d :: ds) = ds := by
    intro hs2
    induction hs2 with
    | nil =>
      intro _
      simp [findDataLines, hd]
    | cons l t ih =>
      intro hall
      rw [List.cons_append]
      unfold findDataLines
      rw [if_neg (by simp [hall l (List.mem_cons_self l t)])]
      exact ih (fun x hx => hall x (List.mem_cons_of_mem l hx))
  refine ⟨h1 hs hhs, ?_⟩
  unfold loadUnicodeData
  rw [h1 hs hhs]

/-- Witness for C9: one header comment line, then two data lines with no
blank line between header and data — the first data line is consumed and
yields no entry. -/
theorem claim_header_terminator_consumed_witness :
    findDataLines [goStr "# Confusables", goStr "0041 ;\t0042 ;\tMA",
        goStr "0043 ;\t0044 ;\tMA"]
      = [goStr "0043 ;\t0044 ;\tMA"]
  ∧ loadUnicodeData [goStr "# Confusables", goStr "0041 ;\t0042 ;\tMA",
        goStr "0043 ;\t0044 ;\tMA"]
      = parseAll [goStr "0043 ;\t0044 ;\tMA"] :=
  claim_header_terminator_consumed [goStr "# Confusables"]
    (goStr "0041 ;\t0042 ;\tMA") [goStr "0043 ;\t0044 ;\tMA"]
    (by decide) (by decide)

/-- C10: the scan loop terminates on every input and mapping — each
iteration strictly shrinks the byte length of the unscanned suffix, even
when a replacement is shorter (or emptier) than the replaced codepoint —
and the number of iterations is at most the byte length of the
NFKD-normalized input. -/
theorem claim_scan_terminates (m : Int → Option (List Nat))
    (nfkd : List Nat → List Nat) (s : List Nat) :
    (∀ i, i < (nfkd s).length →
      (skeletonStep m (nfkd s) i).1.length - (skeletonStep m (nfkd s) i).2
        < (nfkd s).length - i)
  ∧ skeletonSteps m (nfkd s) 0 ≤ (nfkd s).length :=
  ⟨fun i hi => skeletonStep_measure m (nfkd s) i hi,
   skeletonSteps_le m (nfkd s).length (nfkd s) 0 (by omega)⟩

/-- Witness for C10 at a concrete map (with an empty replacement, the
shrinking case the claim singles out), NFKD function and input. -/
theorem claim_scan_terminates_witness :
    ((skeletonStep (fun _ => some []) (id (goStr "ab")) 0).1.length
        - (skeletonStep (fun _ => some []) (id (goStr "ab")) 0).2
      < (id (goStr "ab")).length - 0)
  ∧ skeletonSteps (fun _ => some []) (id (goStr "ab")) 0
      ≤ (id (goStr "ab")).length :=
  ⟨(claim_scan_terminates (fun _ => some []) id (goStr "ab")).1 0 (by decide),
   (claim_scan_terminates (fun _ => some []) id (goStr "ab")).2⟩

end Confusables
